import Mathlib

/-!
# Verification of the journaling service (mental_health_care)

Shallow embedding of `src/services/journaling.py` (class `JournalingService`)
together with the data model of `src/models/journal.py` and the partial-update
schema of `src/schemas/journaling.py`.

The database is modelled as a list of `JournalEntry` records in storage order.
Each `async` service method becomes a pure Lean function from the store (and
the clock, where the source reads `datetime.utcnow()`) to its result and the
resulting store.  SQL query clauses become the corresponding list operations:
`WHERE` is `List.filter`, `ORDER BY` is a sort, `OFFSET`/`LIMIT` are
`List.drop`/`List.take`, `GROUP BY entry_date` is grouping by the distinct
dates, and `AVG` is the exact arithmetic mean in `ℚ` (`NULL` for an empty
group).
-/

/-- Calendar dates (proleptic Gregorian), as Python's `datetime.date`. -/
structure Date where
  year : Int
  month : Nat
  day : Nat
deriving DecidableEq, Repr

/-- Date ordering: lexicographic on (year, month, day), matching how
`datetime.date` compares and how the SQL `Date` column compares. -/
def Date.le (a b : Date) : Prop :=
  a.year < b.year ∨ (a.year = b.year ∧ (a.month < b.month ∨ (a.month = b.month ∧ a.day ≤ b.day)))

instance : LE Date := ⟨Date.le⟩

instance (a b : Date) : Decidable (a ≤ b) :=
  inferInstanceAs (Decidable (_ ∨ _ ∧ (_ ∨ _ ∧ _)))

theorem Date.le_def (a b : Date) : (a ≤ b) =
    (a.year < b.year ∨ (a.year = b.year ∧ (a.month < b.month ∨ (a.month = b.month ∧ a.day ≤ b.day)))) :=
  rfl

theorem Date.le_total (a b : Date) : a ≤ b ∨ b ≤ a := by
  simp only [Date.le_def]
  omega

theorem Date.le_trans {a b c : Date} (h1 : a ≤ b) (h2 : b ≤ c) : a ≤ c := by
  simp only [Date.le_def] at *
  omega

/-- Day number of a date (days since 1970-01-01, proleptic Gregorian);
the standard civil-calendar conversion, as used by `datetime.date.toordinal`
up to a constant offset. -/
def Date.toDays (d : Date) : Int :=
  let y : Int := if d.month ≤ 2 then d.year - 1 else d.year
  let era : Int := Int.fdiv y 400
  let yoe : Int := y - era * 400
  let mp : Int := if d.month ≤ 2 then (d.month : Int) + 9 else (d.month : Int) - 3
  let doy : Int := Int.fdiv (153 * mp + 2) 5 + (d.day : Int) - 1
  let doe : Int := yoe * 365 + Int.fdiv yoe 4 - Int.fdiv yoe 100 + doy
  era * 146097 + doe - 719468

/-- Inverse of `Date.toDays` (civil date from day number). -/
def Date.ofDays (z0 : Int) : Date :=
  let z := z0 + 719468
  let era := Int.fdiv z 146097
  let doe := z - era * 146097
  let yoe := Int.fdiv (doe - Int.fdiv doe 1460 + Int.fdiv doe 36524 - Int.fdiv doe 146096) 365
  let y := yoe + era * 400
  let doy := doe - (365 * yoe + Int.fdiv yoe 4 - Int.fdiv yoe 100)
  let mp := Int.fdiv (5 * doy + 2) 153
  let dd := doy - Int.fdiv (153 * mp + 2) 5 + 1
  let m := if mp < 10 then mp + 3 else mp - 9
  { year := if m ≤ 2 then y + 1 else y, month := m.toNat, day := dd.toNat }

/-- `d - timedelta(days=n)` on Python dates. -/
def Date.subDays (d : Date) (n : Nat) : Date := Date.ofDays (d.toDays - n)

/-- `date.replace(day=1)`: first day of the calendar month containing `d`. -/
def Date.monthStart (d : Date) : Date := { d with day := 1 }

/-- A persisted journal entry row (`src/models/journal.py`, `JournalEntry`,
with the `id`/`created_at`/`updated_at` columns from `BaseModel`).
Timestamps are abstract clock readings modelled as `Nat`. -/
structure JournalEntry where
  id : String
  user_id : String
  title : String
  content : String
  entry_date : Date
  mood_rating : Option Nat
  energy_level : Option Nat
  tags : Option String
  created_at : Nat
  updated_at : Nat
deriving DecidableEq, Repr

/-- The journal_entries table, in storage order. -/
abbrev Store := List JournalEntry

/-- `JournalEntryCreate` (`src/schemas/journaling.py`): the validated fields
of a create request. -/
structure JournalEntryCreate where
  title : String
  content : String
  entry_date : Date
  mood_rating : Option Nat
  energy_level : Option Nat
  tags : Option String
deriving DecidableEq, Repr

/-- `JournalingService.get_entry`: `SELECT .. WHERE id == entry_id AND
user_id == user_id`, then `scalar_one_or_none()`. -/
def get_entry (store : Store) (user_id entry_id : String) : Option JournalEntry :=
  store.find? (fun e => decide (e.id = entry_id) && decide (e.user_id = user_id))

/-- `JournalingService.create_entry`: build a `JournalEntry` from `user_id`
and the request fields and insert it.  The generated UUID and the insert
timestamp are passed in as `newId` and `now` (the source draws them from
`uuid.uuid4()` and the database clock). -/
def create_entry (store : Store) (user_id : String) (entry_data : JournalEntryCreate)
    (newId : String) (now : Nat) : JournalEntry × Store :=
  let db_entry : JournalEntry :=
    { id := newId
      user_id := user_id
      title := entry_data.title
      content := entry_data.content
      entry_date := entry_data.entry_date
      mood_rating := entry_data.mood_rating
      energy_level := entry_data.energy_level
      tags := entry_data.tags
      created_at := now
      updated_at := now }
  (db_entry, store ++ [db_entry])

/-- `JournalingService.delete_entry`: fetch via `get_entry`; if absent return
`False`, otherwise delete that row (by primary key) and return `True`. -/
def delete_entry (store : Store) (user_id entry_id : String) : Bool × Store :=
  match get_entry store user_id entry_id with
  | none => (false, store)
  | some e => (true, store.filter (fun x => !decide (x.id = e.id)))

theorem get_entry_eq_none_of_no_owner {store : Store} {u i : String}
    (h : ∀ e ∈ store, e.id = i → e.user_id ≠ u) :
    get_entry store u i = none := by
  apply List.find?_eq_none.mpr
  intro e he
  simp only [Bool.and_eq_true, decide_eq_true_eq, not_and]
  intro hid
  exact h e he hid

theorem get_entry_some {store : Store} {u i : String} {e : JournalEntry}
    (h : get_entry store u i = some e) : e ∈ store ∧ e.id = i ∧ e.user_id = u := by
  have hmem := List.mem_of_find?_eq_some h
  have hp := List.find?_some h
  simp only [Bool.and_eq_true, decide_eq_true_eq] at hp
  exact ⟨hmem, hp.1, hp.2⟩

/-- `JournalEntryUpdate` (`src/schemas/journaling.py`): partial-update input.
An outer `none` means the field was not supplied (pydantic "unset", excluded
by `model_dump(exclude_unset=True)`); `some v` means it was supplied with
value `v`.  For the nullable columns (`mood_rating`, `energy_level`, `tags`)
a supplied value may itself be null, hence the nested `Option`. -/
structure JournalEntryUpdate where
  title : Option String := none
  content : Option String := none
  entry_date : Option Date := none
  mood_rating : Option (Option Nat) := none
  energy_level : Option (Option Nat) := none
  tags : Option (Option String) := none
deriving DecidableEq, Repr

/-- The `setattr` loop of `update_entry`: apply each field present in
`model_dump(exclude_unset=True)`, in schema field order. -/
def applyFields (e : JournalEntry) (u : JournalEntryUpdate) : JournalEntry :=
  let e1 := match u.title with | none => e | some v => { e with title := v }
  let e2 := match u.content with | none => e1 | some v => { e1 with content := v }
  let e3 := match u.entry_date with | none => e2 | some v => { e2 with entry_date := v }
  let e4 := match u.mood_rating with | none => e3 | some v => { e3 with mood_rating := v }
  let e5 := match u.energy_level with | none => e4 | some v => { e4 with energy_level := v }
  match u.tags with | none => e5 | some v => { e5 with tags := v }

/-- `JournalingService.update_entry`: fetch via `get_entry`; on `None` return
`None`; otherwise apply the supplied fields, set `updated_at = utcnow()`
(passed as `now`), and commit the mutated row back by primary key. -/
def update_entry (store : Store) (user_id entry_id : String)
    (update_data : JournalEntryUpdate) (now : Nat) : Option JournalEntry × Store :=
  match get_entry store user_id entry_id with
  | none => (none, store)
  | some entry =>
    let entry2 := { applyFields entry update_data with updated_at := now }
    (some entry2, store.map (fun x => if x.id = entry.id then entry2 else x))

theorem find?_append_right {α : Type} (p : α → Bool) :
    ∀ l1 l2 : List α, l1.find? p = none → (l1 ++ l2).find? p = l2.find? p := by
  intro l1 l2 h
  induction l1 with
  | nil => simp
  | cons a t ih =>
    rw [List.find?_eq_none] at h
    have ha : ¬p a = true := h a (by simp)
    have ht : t.find? p = none := List.find?_eq_none.mpr (fun x hx => h x (by simp [hx]))
    rw [List.cons_append, List.find?_cons_of_neg _ ha]
    exact ih ht

/-- C1: for every store and user `u`, calling `get_entry`, `update_entry`, or
`delete_entry` with an entry id that either does not exist or exists only with
a different owner yields exactly the "not found" behaviour: `get` returns
`none`, `update` returns `none` leaving the store unchanged, and `delete`
returns `false` leaving the store unchanged — so a wrong-owner id is
observationally identical to a nonexistent id. -/
theorem wrong_owner_indistinguishable_from_missing (store : Store) (u i : String)
    (h : ∀ e ∈ store, e.id = i → e.user_id ≠ u) :
    get_entry store u i = none
    ∧ (∀ upd now, update_entry store u i upd now = (none, store))
    ∧ delete_entry store u i = (false, store) := by
  have hg := get_entry_eq_none_of_no_owner h
  refine ⟨hg, fun upd now => ?_, ?_⟩
  · simp [update_entry, hg]
  · simp [delete_entry, hg]

def entryA : JournalEntry :=
  { id := "e1", user_id := "alice", title := "t", content := "c",
    entry_date := ⟨2024, 1, 5⟩, mood_rating := some 8, energy_level := some 5,
    tags := some "work,urgent", created_at := 0, updated_at := 0 }

/-- Witness for C1: a store holding only alice's entry `e1`, accessed as bob. -/
theorem wrong_owner_indistinguishable_from_missing_witness :
    get_entry [entryA] "bob" "e1" = none
    ∧ update_entry [entryA] "bob" "e1" {} 5 = (none, [entryA])
    ∧ delete_entry [entryA] "bob" "e1" = (false, [entryA]) := by
  have h := wrong_owner_indistinguishable_from_missing [entryA] "bob" "e1" (by decide)
  exact ⟨h.1, h.2.1 {} 5, h.2.2⟩

/-- C8: for every valid create by user `u` (the freshly generated id does not
collide with any stored id), the returned entry's `user_id` is `u`, and a
subsequent `get_entry` with `(u, returned id)` on the resulting store returns
exactly the entry that `create_entry` returned. -/
theorem create_then_get (store : Store) (u : String) (d : JournalEntryCreate)
    (newId : String) (now : Nat) (hfresh : ∀ e ∈ store, e.id ≠ newId) :
    (create_entry store u d newId now).1.user_id = u
    ∧ get_entry (create_entry store u d newId now).2 u (create_entry store u d newId now).1.id
        = some (create_entry store u d newId now).1 := by
  refine ⟨rfl, ?_⟩
  show get_entry (store ++ [_]) u newId = _
  unfold get_entry
  rw [find?_append_right]
  · simp [create_entry]
  · apply List.find?_eq_none.mpr
    intro e he
    simp only [Bool.and_eq_true, decide_eq_true_eq, not_and]
    intro hid
    exact absurd hid (hfresh e he)

def createA : JournalEntryCreate :=
  { title := "t", content := "c", entry_date := ⟨2024, 1, 5⟩,
    mood_rating := some 8, energy_level := some 5, tags := some "work" }

/-- Witness for C8: creating an entry in the empty store and reading it back. -/
theorem create_then_get_witness :
    (create_entry [] "alice" createA "e9" 3).1.user_id = "alice"
    ∧ get_entry (create_entry [] "alice" createA "e9" 3).2 "alice"
        (create_entry [] "alice" createA "e9" 3).1.id
      = some (create_entry [] "alice" createA "e9" 3).1 :=
  create_then_get [] "alice" createA "e9" 3 (by decide)

/-- C9: `delete_entry` returns `false` (not an error) and leaves the store
unchanged when no entry with the given id exists for the caller (absent id or
wrong owner); and whenever it returns `true` (i.e. `get_entry` found the
entry), the entry is removed: no entry with that id remains in the resulting
store and a subsequent `get_entry` on it returns `none`. -/
theorem delete_entry_spec (store : Store) (u i : String) :
    ((∀ e ∈ store, e.id = i → e.user_id ≠ u) → delete_entry store u i = (false, store))
    ∧ (∀ e, get_entry store u i = some e →
        (delete_entry store u i).1 = true
        ∧ (∀ x ∈ (delete_entry store u i).2, x.id ≠ i)
        ∧ get_entry (delete_entry store u i).2 u i = none) := by
  constructor
  · intro h
    simp [delete_entry, get_entry_eq_none_of_no_owner h]
  · intro e he
    obtain ⟨hmem, hid, huser⟩ := get_entry_some he
    have hdel : delete_entry store u i
        = (true, store.filter (fun x => !decide (x.id = e.id))) := by
      simp [delete_entry, he]
    have hnoid : ∀ x ∈ (delete_entry store u i).2, x.id ≠ i := by
      intro x hx
      rw [hdel] at hx
      simp only [List.mem_filter, Bool.not_eq_true', decide_eq_false_iff_not] at hx
      exact hid ▸ hx.2
    refine ⟨by rw [hdel], hnoid, ?_⟩
    exact get_entry_eq_none_of_no_owner (fun x hx hxi => absurd hxi (hnoid x hx))

/-- Witness for C9: deleting alice's entry as carol fails and changes nothing;
deleting it as alice succeeds and a subsequent get returns not-found. -/
theorem delete_entry_spec_witness :
    delete_entry [entryA] "carol" "e1" = (false, [entryA])
    ∧ (delete_entry [entryA] "alice" "e1").1 = true
    ∧ get_entry (delete_entry [entryA] "alice" "e1").2 "alice" "e1" = none := by
  refine ⟨(delete_entry_spec [entryA] "carol" "e1").1 (by decide), ?_, ?_⟩
  · exact ((delete_entry_spec [entryA] "alice" "e1").2 entryA (by decide)).1
  · exact ((delete_entry_spec [entryA] "alice" "e1").2 entryA (by decide)).2.2

/-- Literal (case-sensitive, wildcard-free) substring containment: the
notion of "contains the filter string as a substring". -/
def substrMatch (pat s : String) : Bool :=
  (List.range (s.toList.length + 1)).any
    (fun i => decide ((s.toList.drop i).take pat.toList.length = pat.toList))

theorem substrMatch_iff (pat s : String) :
    substrMatch pat s = true ↔ ∃ pre post, s.toList = pre ++ pat.toList ++ post := by
  unfold substrMatch
  simp only [List.any_eq_true, List.mem_range, decide_eq_true_eq]
  constructor
  · rintro ⟨i, _, heq⟩
    refine ⟨s.toList.take i, (s.toList.drop i).drop pat.toList.length, ?_⟩
    conv_lhs => rw [← List.take_append_drop i s.toList,
                    ← List.take_append_drop pat.toList.length (s.toList.drop i), heq]
    rw [List.append_assoc]
  · rintro ⟨pre, post, heq⟩
    refine ⟨pre.length, ?_, ?_⟩
    · have : s.toList.length = pre.length + pat.toList.length + post.length := by
        rw [heq]; simp; omega
      omega
    · rw [heq, List.append_assoc, List.drop_left, List.take_left]

/-- SQLite's default ASCII case folding (`A`-`Z` fold to `a`-`z`; all other
characters, including non-ASCII letters, compare by code point). -/
def asciiLower (c : Char) : Char :=
  if 'A' ≤ c ∧ c ≤ 'Z' then Char.ofNat (c.toNat + 32) else c

/-- SQLite `LIKE` on the default build (no ICU, `case_sensitive_like` off),
as hit by the service's `tags.like(f"%{tags}%")` over the configured
`sqlite+aiosqlite` engine: `%` matches any character sequence, `_` matches
exactly one character, and ordinary characters compare
ASCII-case-insensitively. -/
def likeMatch : List Char → List Char → Bool
  | [], t => t.isEmpty
  | pc :: ps, t =>
    if pc = '%' then
      (List.range (t.length + 1)).any (fun i => likeMatch ps (t.drop i))
    else
      match t with
      | [] => false
      | c :: ts =>
        if pc = '_' then likeMatch ps ts
        else decide (asciiLower pc = asciiLower c) && likeMatch ps ts

theorem likeMatch_pct_iff (ps t : List Char) :
    likeMatch ('%' :: ps) t = true ↔ ∃ i, i ≤ t.length ∧ likeMatch ps (t.drop i) = true := by
  simp [likeMatch, List.any_eq_true, List.mem_range, Nat.lt_succ_iff]

theorem likeMatch_lit (n : List Char) :
    (∀ c ∈ n, c ≠ '%' ∧ c ≠ '_') →
    ∀ t, (likeMatch (n ++ ['%']) t = true ↔
      ∃ m t3, t = m ++ t3 ∧ m.map asciiLower = n.map asciiLower) := by
  induction n with
  | nil =>
    intro _ t
    constructor
    · intro _
      exact ⟨[], t, rfl, rfl⟩
    · intro _
      rw [List.nil_append, likeMatch_pct_iff]
      exact ⟨t.length, le_refl _, by simp [likeMatch]⟩
  | cons pc ps ih =>
    intro hw t
    have hpc := hw pc (List.mem_cons_self _ _)
    have ihs := ih (fun c hc => hw c (List.mem_cons_of_mem _ hc))
    constructor
    · intro h
      cases t with
      | nil => simp [likeMatch, hpc.1] at h
      | cons c ts =>
        rw [List.cons_append] at h
        simp only [likeMatch, hpc.1, hpc.2, if_false, Bool.and_eq_true,
          decide_eq_true_eq] at h
        obtain ⟨m', t3, rfl, hm⟩ := (ihs ts).mp h.2
        exact ⟨c :: m', t3, rfl, by simp [hm, h.1]⟩
    · rintro ⟨m, t3, rfl, hm⟩
      cases m with
      | nil => simp at hm
      | cons c m' =>
        simp only [List.map_cons, List.cons.injEq] at hm
        have hrest := (ihs (m' ++ t3)).mpr ⟨m', t3, rfl, hm.2⟩
        rw [List.cons_append, List.cons_append]
        simp [likeMatch, hpc.1, hpc.2, hm.1, hrest]

theorem likeMatch_wrap_iff (s : List Char) (hw : ∀ c ∈ s, c ≠ '%' ∧ c ≠ '_')
    (t : List Char) :
    likeMatch ('%' :: (s ++ ['%'])) t = true ↔
      ∃ pre post, t.map asciiLower = pre ++ s.map asciiLower ++ post := by
  rw [likeMatch_pct_iff]
  constructor
  · rintro ⟨i, hi, hmatch⟩
    obtain ⟨m, t3, heq, hm⟩ := (likeMatch_lit s hw (t.drop i)).mp hmatch
    refine ⟨(t.take i).map asciiLower, t3.map asciiLower, ?_⟩
    conv_lhs => rw [← List.take_append_drop i t, heq]
    rw [List.map_append, List.map_append, hm, List.append_assoc]
  · rintro ⟨pre, post, heq⟩
    have hlen : t.length = pre.length + s.length + post.length := by
      have h1 : (t.map asciiLower).length = t.length := List.length_map _ _
      have h2 : (s.map asciiLower).length = s.length := List.length_map _ _
      rw [heq] at h1
      simp only [List.length_append] at h1
      omega
    refine ⟨pre.length, by omega, ?_⟩
    apply (likeMatch_lit s hw (t.drop pre.length)).mpr
    refine ⟨(t.drop pre.length).take s.length, (t.drop pre.length).drop s.length,
      (List.take_append_drop _ _).symm, ?_⟩
    rw [List.map_take, List.map_drop, heq, List.append_assoc, List.drop_left,
      ← List.length_map s asciiLower, List.take_left]

/-- The `WHERE` clauses of `get_user_entries`, in source order: owner, the two
optional inclusive date bounds, and the optional tag-substring filter.
Python's `if tags:` is falsy both for `None` and for the empty string, so an
empty tag filter is skipped entirely. -/
def entryMatchesFilters (user_id : String) (from_date to_date : Option Date)
    (tags : Option String) (e : JournalEntry) : Bool :=
  decide (e.user_id = user_id)
  && (match from_date with | none => true | some d => decide (d ≤ e.entry_date))
  && (match to_date with | none => true | some d => decide (e.entry_date ≤ d))
  && (match tags with
      | none => true
      | some s =>
        if s.isEmpty then true
        else match e.tags with
          | none => false
          | some t => likeMatch ('%' :: s.toList ++ ['%']) t.toList)

/-- `ORDER BY entry_date DESC`: `a` precedes `b` when `a`'s entry_date is the
later (or equal) one. -/
def entryDateGe (a b : JournalEntry) : Prop := b.entry_date ≤ a.entry_date

instance : DecidableRel entryDateGe := fun _ _ => inferInstanceAs (Decidable (_ ≤ _))

instance : IsTotal JournalEntry entryDateGe :=
  ⟨fun a b => Date.le_total b.entry_date a.entry_date⟩

instance : IsTrans JournalEntry entryDateGe :=
  ⟨fun _ _ _ h1 h2 => Date.le_trans h2 h1⟩

/-- The query built by `get_user_entries` just before pagination is applied
(line 115 of the source): scope to the user, apply the optional filters and
`ORDER BY entry_date DESC`. -/
def get_user_entries_nopage (store : Store) (user_id : String)
    (from_date to_date : Option Date) (tags : Option String) : List JournalEntry :=
  (store.filter (entryMatchesFilters user_id from_date to_date tags)).insertionSort entryDateGe

/-- `JournalingService.get_user_entries`: the filtered, ordered query followed
by `OFFSET skip` and `LIMIT limit`. -/
def get_user_entries (store : Store) (user_id : String) (skip limit : Nat)
    (from_date to_date : Option Date) (tags : Option String) : List JournalEntry :=
  ((get_user_entries_nopage store user_id from_date to_date tags).drop skip).take limit

theorem isEmpty_false_of_ne {s : String} (h : s ≠ "") : s.isEmpty = false := by
  cases he : s.isEmpty
  · rfl
  · exact absurd ((String.isEmpty_iff s).mp he) h

theorem entryMatchesFilters_iff (u : String) (fd td : Option Date) (tg : Option String)
    (hs : ∀ s ∈ tg, s ≠ "")
    (hw : ∀ s ∈ tg, ∀ c ∈ s.toList, c ≠ '%' ∧ c ≠ '_') (e : JournalEntry) :
    entryMatchesFilters u fd td tg e = true ↔
      (e.user_id = u ∧ (∀ d1 ∈ fd, d1 ≤ e.entry_date) ∧ (∀ d2 ∈ td, e.entry_date ≤ d2)
        ∧ (∀ s ∈ tg, ∃ t, e.tags = some t ∧ ∃ pre post,
            t.toList.map asciiLower = pre ++ s.toList.map asciiLower ++ post)) := by
  cases tg with
  | none =>
    cases fd <;> cases td <;>
      simp [entryMatchesFilters, and_assoc]
  | some s =>
    have hempty : s.isEmpty = false := isEmpty_false_of_ne (hs s rfl)
    have hlike : ∀ t : String, likeMatch ('%' :: (s.data ++ ['%'])) t.data = true ↔
        ∃ pre post, t.data.map asciiLower = pre ++ (s.data.map asciiLower ++ post) := by
      intro t
      simp only [← List.append_assoc]
      exact likeMatch_wrap_iff s.toList (hw s rfl) t.toList
    cases fd <;> cases td <;> cases htags : e.tags <;>
      simp [entryMatchesFilters, hempty, htags, hlike, and_assoc]

theorem get_user_entries_no_truncation (store : Store) (u : String) (L : Nat)
    (fd td : Option Date) (tg : Option String)
    (hL : (store.filter (entryMatchesFilters u fd td tg)).length ≤ L) :
    get_user_entries store u 0 L fd td tg = get_user_entries_nopage store u fd td tg := by
  unfold get_user_entries
  rw [List.drop_zero]
  apply List.take_of_length_le
  unfold get_user_entries_nopage
  rw [List.length_insertionSort]
  exact hL

/-- C4: for every user, filters, skip `S`, and limit `L` with `1 ≤ L ≤ 1000`,
the paginated list has length at most `L` and equals the slice from position
`S` to `S + L` of the ordered result of the same query without pagination. -/
theorem pagination_slice (store : Store) (u : String) (S L : Nat)
    (fd td : Option Date) (tg : Option String) (hL1 : 1 ≤ L) (hL2 : L ≤ 1000) :
    (get_user_entries store u S L fd td tg).length ≤ L
    ∧ get_user_entries store u S L fd td tg
        = ((get_user_entries_nopage store u fd td tg).drop S).take L :=
  ⟨List.length_take_le _ _, rfl⟩

def entryW : JournalEntry :=
  { id := "w1", user_id := "u", title := "tw", content := "cw",
    entry_date := ⟨2024, 1, 20⟩, mood_rating := some 4, energy_level := none,
    tags := some "work,urgent", created_at := 0, updated_at := 0 }

def entryH : JournalEntry :=
  { id := "h1", user_id := "u", title := "th", content := "ch",
    entry_date := ⟨2024, 1, 5⟩, mood_rating := some 8, energy_level := none,
    tags := some "homework", created_at := 0, updated_at := 0 }

/-- Witness for C4: skip 1, limit 2 on a two-entry store. -/
theorem pagination_slice_witness :
    1 ≤ 2 ∧ 2 ≤ 1000
    ∧ (get_user_entries [entryW, entryH] "u" 1 2 none none none).length ≤ 2
    ∧ get_user_entries [entryW, entryH] "u" 1 2 none none none
        = ((get_user_entries_nopage [entryW, entryH] "u" none none none).drop 1).take 2 := by
  have h := pagination_slice [entryW, entryH] "u" 1 2 none none none (by decide) (by decide)
  exact ⟨by decide, by decide, h.1, h.2⟩

/-- C5: for every user and optional inclusive bounds `from_date`/`to_date`
(with `D1 ≤ D2` when both are present), listing with those bounds (no tag
filter, no truncating pagination) returns exactly the user's entries whose
`entry_date` lies within the supplied bounds — each bound applying
independently when the other is absent — ordered descending by `entry_date`. -/
theorem date_range_filter (store : Store) (u : String) (fd td : Option Date) (L : Nat)
    (hD : ∀ d1 ∈ fd, ∀ d2 ∈ td, d1 ≤ d2)
    (hL : (store.filter (entryMatchesFilters u fd td none)).length ≤ L) :
    (get_user_entries store u 0 L fd td none).Perm
        (store.filter (entryMatchesFilters u fd td none))
    ∧ (∀ e, e ∈ get_user_entries store u 0 L fd td none ↔
        e ∈ store ∧ e.user_id = u
          ∧ (∀ d1 ∈ fd, d1 ≤ e.entry_date) ∧ (∀ d2 ∈ td, e.entry_date ≤ d2))
    ∧ List.Sorted entryDateGe (get_user_entries store u 0 L fd td none) := by
  have heq := get_user_entries_no_truncation store u L fd td none hL
  refine ⟨?_, ?_, ?_⟩
  · rw [heq]
    exact List.perm_insertionSort entryDateGe _
  · intro e
    rw [heq]
    unfold get_user_entries_nopage
    rw [List.mem_insertionSort, List.mem_filter,
        entryMatchesFilters_iff u fd td none (by simp) (by simp) e]
    simp [and_assoc]
  · rw [heq]
    exact List.sorted_insertionSort entryDateGe _

/-- Witness for C5: the January 2024 range on a two-entry store. -/
theorem date_range_filter_witness :
    entryW ∈ get_user_entries [entryW, entryH] "u" 0 100
        (some ⟨2024, 1, 1⟩) (some ⟨2024, 1, 31⟩) none
    ∧ List.Sorted entryDateGe (get_user_entries [entryW, entryH] "u" 0 100
        (some ⟨2024, 1, 1⟩) (some ⟨2024, 1, 31⟩) none) := by
  have h := date_range_filter [entryW, entryH] "u"
    (some ⟨2024, 1, 1⟩) (some ⟨2024, 1, 31⟩) 100 (by decide) (by decide)
  refine ⟨(h.2.1 entryW).mpr ?_, h.2.2⟩
  refine ⟨by simp, rfl, ?_, ?_⟩ <;> · intro d hd; simp at hd; subst hd; decide

/-- C7 (amended): for every user and non-empty tag filter string containing
no SQL LIKE wildcard (`%`, `_`), listing with that filter (within the other
active filters, no truncating pagination) returns exactly the entries whose
tags contain the filter string as a substring up to ASCII case folding —
whose case-folded tag text decomposes as `pre ++ fold(s) ++ post` — the
semantics of SQLite's default `LIKE '%s%'`; entries with null tags never
match.  For filter strings containing `%` or `_`, or differing from the
stored text only in ASCII case, the source matches a strict superset of the
literal substring matches, because the filter is interpolated into the LIKE
pattern unescaped — see the counterexample. -/
theorem tag_substring_filter (store : Store) (u : String) (s : String) (L : Nat)
    (fd td : Option Date) (hs : s ≠ "")
    (hw : ∀ c ∈ s.toList, c ≠ '%' ∧ c ≠ '_')
    (hL : (store.filter (entryMatchesFilters u fd td (some s))).length ≤ L) :
    ∀ e, e ∈ get_user_entries store u 0 L fd td (some s) ↔
      (e ∈ store ∧ e.user_id = u
        ∧ (∀ d1 ∈ fd, d1 ≤ e.entry_date) ∧ (∀ d2 ∈ td, e.entry_date ≤ d2)
        ∧ ∃ t, e.tags = some t ∧ ∃ pre post,
            t.toList.map asciiLower = pre ++ s.toList.map asciiLower ++ post) := by
  intro e
  rw [get_user_entries_no_truncation store u L fd td (some s) hL]
  unfold get_user_entries_nopage
  rw [List.mem_insertionSort, List.mem_filter,
      entryMatchesFilters_iff u fd td (some s) (by simpa using hs) (by simpa using hw) e]
  simp [and_assoc]

/-- Witness for C7 (the spec's scenario): the wildcard-free filter "work"
matches both an entry tagged "work,urgent" and an entry tagged "homework". -/
theorem tag_substring_filter_witness :
    entryW ∈ get_user_entries [entryW, entryH] "u" 0 100 none none (some "work")
    ∧ entryH ∈ get_user_entries [entryW, entryH] "u" 0 100 none none (some "work") := by
  have h := tag_substring_filter [entryW, entryH] "u" "work" 100 none none
    (by decide) (by decide) (by decide)
  constructor
  · exact (h entryW).mpr ⟨by simp, rfl, by simp, by simp,
      "work,urgent", rfl, [], ",urgent".toList.map asciiLower, by decide⟩
  · exact (h entryH).mpr ⟨by simp, rfl, by simp, by simp,
      "homework", rfl, "home".toList.map asciiLower, [], by decide⟩

/-- Counterexample to C7 as stated: the source interpolates the filter into
`tags LIKE '%{filter}%'` unescaped on a SQLite backend, so `_` acts as a
single-character wildcard and letters match ASCII-case-insensitively.  The
filters "home_ork" and "WORK" both return the entry tagged "homework", whose
tags do not contain either filter string as a substring. -/
theorem tag_substring_counterexample :
    (entryH ∈ get_user_entries [entryH] "u" 0 100 none none (some "home_ork")
      ∧ ¬ ∃ pre post, "homework".toList = pre ++ "home_ork".toList ++ post)
    ∧ (entryH ∈ get_user_entries [entryH] "u" 0 100 none none (some "WORK")
      ∧ ¬ ∃ pre post, "homework".toList = pre ++ "WORK".toList ++ post) := by
  refine ⟨⟨by decide, fun hex => ?_⟩, ⟨by decide, fun hex => ?_⟩⟩
  · exact absurd ((substrMatch_iff "home_ork" "homework").mpr hex) (by decide)
  · exact absurd ((substrMatch_iff "WORK" "homework").mpr hex) (by decide)

/-- C3: for every existing entry owned by `u` and any partial update, only the
fields explicitly present in the update input change — each result field
equals the supplied value when present and the prior value otherwise — and
`updated_at` is refreshed to `now` (which is ≥ the prior `updated_at` under a
monotone clock), even when no field value actually changed.  Supplying only
`mood_rating` is the instance where all five other fields keep their prior
values. -/
theorem update_partial_fields (store : Store) (u i : String) (e : JournalEntry)
    (upd : JournalEntryUpdate) (now : Nat)
    (hget : get_entry store u i = some e) (hnow : e.updated_at ≤ now) :
    ∃ e2, (update_entry store u i upd now).1 = some e2
      ∧ e2.title = upd.title.getD e.title
      ∧ e2.content = upd.content.getD e.content
      ∧ e2.entry_date = upd.entry_date.getD e.entry_date
      ∧ e2.mood_rating = upd.mood_rating.getD e.mood_rating
      ∧ e2.energy_level = upd.energy_level.getD e.energy_level
      ∧ e2.tags = upd.tags.getD e.tags
      ∧ e2.updated_at = now
      ∧ e.updated_at ≤ e2.updated_at := by
  refine ⟨{ applyFields e upd with updated_at := now }, by simp [update_entry, hget],
    ?_, ?_, ?_, ?_, ?_, ?_, rfl, hnow⟩ <;>
  · rcases upd with ⟨t, c, d, m, en, tg⟩
    cases t <;> cases c <;> cases d <;> cases m <;> cases en <;> cases tg <;>
      simp [applyFields]

/-- Witness for C3: updating only `mood_rating` on alice's entry. -/
theorem update_partial_fields_witness :
    ∃ e2, (update_entry [entryA] "alice" "e1"
        { mood_rating := some (some 9) } 7).1 = some e2
      ∧ e2.title = entryA.title
      ∧ e2.content = entryA.content
      ∧ e2.entry_date = entryA.entry_date
      ∧ e2.mood_rating = some 9
      ∧ e2.energy_level = entryA.energy_level
      ∧ e2.tags = entryA.tags
      ∧ e2.updated_at = 7
      ∧ entryA.updated_at ≤ e2.updated_at := by
  obtain ⟨e2, h1, h2, h3, h4, h5, h6, h7, h8, h9⟩ :=
    update_partial_fields [entryA] "alice" "e1" entryA
      { mood_rating := some (some 9) } 7 (by decide) (by decide)
  exact ⟨e2, h1, h2, h3, h4, h5, h6, h7, h8, h9⟩

/-- C10: an update whose partial input sets no fields at all succeeds rather
than failing: it returns the entry with `title`, `content`, `entry_date`,
`mood_rating`, `energy_level`, and `tags` all equal to their prior values,
and still refreshes `updated_at`. -/
theorem update_no_fields (store : Store) (u i : String) (e : JournalEntry) (now : Nat)
    (hget : get_entry store u i = some e) :
    ∃ e2, (update_entry store u i {} now).1 = some e2
      ∧ e2.title = e.title ∧ e2.content = e.content ∧ e2.entry_date = e.entry_date
      ∧ e2.mood_rating = e.mood_rating ∧ e2.energy_level = e.energy_level
      ∧ e2.tags = e.tags ∧ e2.updated_at = now := by
  refine ⟨{ applyFields e {} with updated_at := now }, by simp [update_entry, hget], ?_⟩
  simp [applyFields]

/-- Witness for C10: the empty update on alice's entry. -/
theorem update_no_fields_witness :
    ∃ e2, (update_entry [entryA] "alice" "e1" {} 7).1 = some e2
      ∧ e2.title = entryA.title ∧ e2.content = entryA.content
      ∧ e2.entry_date = entryA.entry_date
      ∧ e2.mood_rating = entryA.mood_rating ∧ e2.energy_level = entryA.energy_level
      ∧ e2.tags = entryA.tags ∧ e2.updated_at = 7 :=
  update_no_fields [entryA] "alice" "e1" entryA 7 (by decide)

/-- Exact arithmetic mean of a list of integer ratings, as SQL `AVG`
computes over the group's rows. -/
def mean (l : List Nat) : ℚ := (l.map (fun n => (Nat.cast n : ℚ))).sum / l.length

/-- SQL `AVG(col)`: `NULL` over zero rows, otherwise the mean. -/
def sqlAvg (l : List Nat) : Option ℚ := if l = [] then none else some (mean l)

/-- Python's `round(x, 2)` applied to an exact value. -/
def round2 (q : ℚ) : ℚ := (round (q * 100) : ℚ) / 100

/-- `round(float(v), 2) if v else None`: Python truthiness sends both `None`
and an average of `0` to `None`. -/
def pyRound2IfTruthy (o : Option ℚ) : Option ℚ :=
  match o with
  | none => none
  | some q => if q = 0 then none else some (round2 q)

/-- Rows feeding the `avg(mood_rating)` month query of `get_user_stats`:
the user's entries with `entry_date ≥ month_start` and non-null
`mood_rating`, projected to their mood values. -/
def moodsThisMonth (store : Store) (user_id : String) (ms : Date) : List Nat :=
  (store.filter (fun e => decide (e.user_id = user_id) && decide (ms ≤ e.entry_date)
      && e.mood_rating.isSome)).filterMap (fun e => e.mood_rating)

/-- Rows feeding the `avg(energy_level)` month query, analogously. -/
def energiesThisMonth (store : Store) (user_id : String) (ms : Date) : List Nat :=
  (store.filter (fun e => decide (e.user_id = user_id) && decide (ms ≤ e.entry_date)
      && e.energy_level.isSome)).filterMap (fun e => e.energy_level)

/-- `average_mood_this_month` as assembled by `get_user_stats`, with
`current_date` (`datetime.utcnow().date()`) passed in as `as_of`. -/
def average_mood_this_month (store : Store) (user_id : String) (as_of : Date) : Option ℚ :=
  pyRound2IfTruthy (sqlAvg (moodsThisMonth store user_id as_of.monthStart))

/-- `average_energy_this_month` as assembled by `get_user_stats`. -/
def average_energy_this_month (store : Store) (user_id : String) (as_of : Date) : Option ℚ :=
  pyRound2IfTruthy (sqlAvg (energiesThisMonth store user_id as_of.monthStart))

/-- Rows of the 30-day trend query (`WHERE user_id == .. AND entry_date >=
thirty_days_ago AND mood_rating IS NOT NULL`).  Note the source imposes no
upper bound on `entry_date`. -/
def trendEntries (store : Store) (user_id : String) (thirty_days_ago : Date) :
    List JournalEntry :=
  store.filter (fun e => decide (e.user_id = user_id)
    && decide (thirty_days_ago ≤ e.entry_date) && e.mood_rating.isSome)

/-- The mood values of the `GROUP BY entry_date` group for date `d` among
query rows `l`. -/
def moodsOn (l : List JournalEntry) (d : Date) : List Nat :=
  (l.filter (fun e => decide (e.entry_date = d))).filterMap (fun e => e.mood_rating)

instance : IsTotal Date (· ≤ ·) := ⟨Date.le_total⟩

instance : IsTrans Date (· ≤ ·) := ⟨fun _ _ _ => Date.le_trans⟩

/-- The distinct entry dates of the rows (`GROUP BY entry_date`), in
ascending order (`ORDER BY entry_date`). -/
def trendDates (l : List JournalEntry) : List Date :=
  ((l.map (fun e => e.entry_date)).dedup).insertionSort (· ≤ ·)

/-- `mood_trend` of `get_user_stats`: one `(date, avg mood)` point per
distinct qualifying `entry_date`, ascending. -/
def mood_trend (store : Store) (user_id : String) (as_of : Date) : List (Date × ℚ) :=
  let thirty_days_ago := as_of.subDays 30
  let q := trendEntries store user_id thirty_days_ago
  (trendDates q).map (fun d => (d, mean (moodsOn q d)))

/-- Spec-side description of a trend group: the non-null mood ratings of the
user's entries dated exactly `d`. -/
def moodsOnDate (store : Store) (user_id : String) (d : Date) : List Nat :=
  (store.filter (fun e => decide (e.user_id = user_id)
      && decide (e.entry_date = d))).filterMap (fun e => e.mood_rating)

theorem moodsOn_trendEntries (store : Store) (u : String) (d30 d : Date) (hd : d30 ≤ d) :
    moodsOn (trendEntries store u d30) d = moodsOnDate store u d := by
  unfold moodsOn trendEntries moodsOnDate
  rw [List.filter_filter, List.filterMap_filter, List.filterMap_filter]
  apply List.filterMap_congr
  intro e _
  by_cases hu : e.user_id = u
  · by_cases hdate : e.entry_date = d
    · cases hm : e.mood_rating
      · simp [hu, hdate, hm]
      · simp [hu, hdate, hm, hd]
    · simp [hu, hdate]
  · simp [hu]

/-- C2 (amended): for every user, `mood_trend` contains exactly one point per
`entry_date ≥ as_of − 30 days` that has at least one entry with a non-null
`mood_rating`; each point's mood is the arithmetic mean of the non-null
`mood_rating`s of that date's entries; no entry with `entry_date <
as_of − 30 days` contributes a point; dates with zero qualifying entries are
omitted; and the points are ordered ascending by date.  (The source's trend
query has no upper bound at `as_of`, so future-dated entries do contribute —
see the counterexample.) -/
theorem mood_trend_spec (store : Store) (u : String) (as_of : Date) :
    List.Sorted (· ≤ ·) ((mood_trend store u as_of).map Prod.fst)
    ∧ ((mood_trend store u as_of).map Prod.fst).Nodup
    ∧ ∀ d q, (d, q) ∈ mood_trend store u as_of ↔
        (as_of.subDays 30 ≤ d
          ∧ (∃ e ∈ store, e.user_id = u ∧ e.entry_date = d ∧ e.mood_rating.isSome)
          ∧ q = mean (moodsOnDate store u d)) := by
  have hfst : (mood_trend store u as_of).map Prod.fst
      = trendDates (trendEntries store u (as_of.subDays 30)) := by
    unfold mood_trend
    simp [List.map_map, Function.comp_def]
  refine ⟨?_, ?_, ?_⟩
  · rw [hfst]; exact List.sorted_insertionSort _ _
  · rw [hfst]
    unfold trendDates
    exact (List.perm_insertionSort _ _).symm.nodup (List.nodup_dedup _)
  · intro d q
    unfold mood_trend
    rw [List.mem_map]
    constructor
    · rintro ⟨d0, hd0, heq⟩
      obtain ⟨rfl, rfl⟩ : d0 = d ∧ mean (moodsOn (trendEntries store u (as_of.subDays 30)) d0) = q := by
        simpa [Prod.ext_iff] using heq
      unfold trendDates at hd0
      rw [List.mem_insertionSort, List.mem_dedup, List.mem_map] at hd0
      obtain ⟨e, he, hed⟩ := hd0
      rw [trendEntries, List.mem_filter] at he
      obtain ⟨hestore, hpred⟩ := he
      simp only [Bool.and_eq_true, decide_eq_true_eq] at hpred
      have hge : as_of.subDays 30 ≤ d0 := hed ▸ hpred.1.2
      exact ⟨hge, ⟨e, hestore, hpred.1.1, hed, hpred.2⟩,
        (moodsOn_trendEntries store u _ d0 hge ▸ rfl)⟩
    · rintro ⟨hge, ⟨e, he, hu, hed, hsome⟩, rfl⟩
      refine ⟨d, ?_, ?_⟩
      · unfold trendDates
        rw [List.mem_insertionSort, List.mem_dedup, List.mem_map]
        refine ⟨e, List.mem_filter.mpr ⟨he, ?_⟩, hed⟩
        simp [hu, hed, hge, hsome]
      · rw [moodsOn_trendEntries store u _ d hge]

def entryFuture : JournalEntry :=
  { id := "f1", user_id := "u", title := "tf", content := "cf",
    entry_date := ⟨2024, 2, 5⟩, mood_rating := some 5, energy_level := none,
    tags := none, created_at := 0, updated_at := 0 }

/-- Counterexample to C2 as stated: with `as_of = 2024-01-31`, an entry dated
2024-02-05 — outside the claimed trailing window `[as_of − 30 days, as_of]` —
does contribute a point to `mood_trend`, because the source query bounds
`entry_date` only from below. -/
theorem mood_trend_counterexample :
    (mood_trend [entryFuture] "u" ⟨2024, 1, 31⟩).map Prod.fst = [⟨2024, 2, 5⟩]
    ∧ ¬ ((⟨2024, 2, 5⟩ : Date) ≤ ⟨2024, 1, 31⟩) := by
  constructor
  · decide
  · decide

theorem length_le_sum_nat (l : List Nat) (h1 : ∀ m ∈ l, 1 ≤ m) : l.length ≤ l.sum := by
  induction l with
  | nil => simp
  | cons a t ih =>
    simp only [List.length_cons, List.sum_cons]
    have ha := h1 a (List.mem_cons_self a t)
    have ht := ih (fun m hm => h1 m (List.mem_cons_of_mem a hm))
    omega

theorem sum_map_cast (l : List Nat) : (l.map (fun n => (Nat.cast n : ℚ))).sum = (l.sum : ℚ) := by
  induction l with
  | nil => simp
  | cons a t ih =>
    simp only [List.map_cons, List.sum_cons, Nat.cast_add]
    rw [ih]

theorem mean_pos {l : List Nat} (hne : l ≠ []) (h1 : ∀ m ∈ l, 1 ≤ m) : 0 < mean l := by
  unfold mean
  rw [sum_map_cast]
  apply div_pos
  · have hs := length_le_sum_nat l h1
    have hlen : 0 < l.length := List.length_pos.mpr hne
    exact_mod_cast lt_of_lt_of_le hlen hs
  · exact_mod_cast List.length_pos.mpr hne

theorem pyAvg_spec (l : List Nat) (h1 : ∀ m ∈ l, 1 ≤ m) :
    (pyRound2IfTruthy (sqlAvg l) = none ↔ l = [])
    ∧ (l ≠ [] → pyRound2IfTruthy (sqlAvg l) = some (round2 (mean l))) := by
  by_cases hnil : l = []
  · simp [hnil, pyRound2IfTruthy, sqlAvg]
  · have hpos : mean l ≠ 0 := ne_of_gt (mean_pos hnil h1)
    simp [pyRound2IfTruthy, sqlAvg, hnil, hpos]

theorem moodsThisMonth_eq_nil_iff (store : Store) (u : String) (ms : Date) :
    moodsThisMonth store u ms = [] ↔
      ¬ ∃ e ∈ store, e.user_id = u ∧ ms ≤ e.entry_date ∧ e.mood_rating.isSome := by
  constructor
  · intro h hex
    obtain ⟨e, he, hu, hd, hsome⟩ := hex
    obtain ⟨m, hm⟩ := Option.isSome_iff_exists.mp hsome
    have hmem : m ∈ moodsThisMonth store u ms := by
      unfold moodsThisMonth
      rw [List.mem_filterMap]
      exact ⟨e, List.mem_filter.mpr ⟨he, by simp [hu, hd, hsome]⟩, hm⟩
    rw [h] at hmem
    simp at hmem
  · intro h
    rcases hne : moodsThisMonth store u ms with _ | ⟨m, rest⟩
    · rfl
    · exfalso
      have hmem : m ∈ moodsThisMonth store u ms := by
        rw [hne]; exact List.mem_cons_self _ _
      unfold moodsThisMonth at hmem
      rw [List.mem_filterMap] at hmem
      obtain ⟨e, hef, hme⟩ := hmem
      rw [List.mem_filter] at hef
      simp only [Bool.and_eq_true, decide_eq_true_eq] at hef
      exact h ⟨e, hef.1, hef.2.1.1, hef.2.1.2, hef.2.2⟩

theorem energiesThisMonth_eq_nil_iff (store : Store) (u : String) (ms : Date) :
    energiesThisMonth store u ms = [] ↔
      ¬ ∃ e ∈ store, e.user_id = u ∧ ms ≤ e.entry_date ∧ e.energy_level.isSome := by
  constructor
  · intro h hex
    obtain ⟨e, he, hu, hd, hsome⟩ := hex
    obtain ⟨m, hm⟩ := Option.isSome_iff_exists.mp hsome
    have hmem : m ∈ energiesThisMonth store u ms := by
      unfold energiesThisMonth
      rw [List.mem_filterMap]
      exact ⟨e, List.mem_filter.mpr ⟨he, by simp [hu, hd, hsome]⟩, hm⟩
    rw [h] at hmem
    simp at hmem
  · intro h
    rcases hne : energiesThisMonth store u ms with _ | ⟨m, rest⟩
    · rfl
    · exfalso
      have hmem : m ∈ energiesThisMonth store u ms := by
        rw [hne]; exact List.mem_cons_self _ _
      unfold energiesThisMonth at hmem
      rw [List.mem_filterMap] at hmem
      obtain ⟨e, hef, hme⟩ := hmem
      rw [List.mem_filter] at hef
      simp only [Bool.and_eq_true, decide_eq_true_eq] at hef
      exact h ⟨e, hef.1, hef.2.1.1, hef.2.1.2, hef.2.2⟩

theorem moodsThisMonth_ge_one {store : Store} {u : String} {ms : Date}
    (hvalid : ∀ e ∈ store, (∀ m ∈ e.mood_rating, 1 ≤ m) ∧ (∀ v ∈ e.energy_level, 1 ≤ v)) :
    ∀ m ∈ moodsThisMonth store u ms, 1 ≤ m := by
  intro m hm
  unfold moodsThisMonth at hm
  rw [List.mem_filterMap] at hm
  obtain ⟨e, hef, hme⟩ := hm
  exact (hvalid e (List.mem_filter.mp hef).1).1 m hme

theorem energiesThisMonth_ge_one {store : Store} {u : String} {ms : Date}
    (hvalid : ∀ e ∈ store, (∀ m ∈ e.mood_rating, 1 ≤ m) ∧ (∀ v ∈ e.energy_level, 1 ≤ v)) :
    ∀ m ∈ energiesThisMonth store u ms, 1 ≤ m := by
  intro m hm
  unfold energiesThisMonth at hm
  rw [List.mem_filterMap] at hm
  obtain ⟨e, hef, hme⟩ := hm
  exact (hvalid e (List.mem_filter.mp hef).1).2 m hme

/-- C6: for every user and `as_of` date (and over schema-valid stores, whose
ratings are ≥ 1 per the request validation), `average_mood_this_month` and
`average_energy_this_month` are null — not zero and not an error — exactly
when the user has no entry with `entry_date ≥ month_start` carrying a
non-null value of the field, where `month_start` is the first day of the
calendar month containing `as_of`; otherwise they equal the arithmetic mean
of the non-null values over entries with `entry_date ≥ month_start`, rounded
to 2 decimal places. -/
theorem average_this_month_spec (store : Store) (u : String) (as_of : Date)
    (hvalid : ∀ e ∈ store, (∀ m ∈ e.mood_rating, 1 ≤ m) ∧ (∀ v ∈ e.energy_level, 1 ≤ v)) :
    (average_mood_this_month store u as_of = none ↔
      ¬ ∃ e ∈ store, e.user_id = u ∧ as_of.monthStart ≤ e.entry_date ∧ e.mood_rating.isSome)
    ∧ ((∃ e ∈ store, e.user_id = u ∧ as_of.monthStart ≤ e.entry_date ∧ e.mood_rating.isSome) →
        average_mood_this_month store u as_of
          = some (round2 (mean (moodsThisMonth store u as_of.monthStart))))
    ∧ (average_energy_this_month store u as_of = none ↔
      ¬ ∃ e ∈ store, e.user_id = u ∧ as_of.monthStart ≤ e.entry_date ∧ e.energy_level.isSome)
    ∧ ((∃ e ∈ store, e.user_id = u ∧ as_of.monthStart ≤ e.entry_date ∧ e.energy_level.isSome) →
        average_energy_this_month store u as_of
          = some (round2 (mean (energiesThisMonth store u as_of.monthStart)))) := by
  have hm := pyAvg_spec (moodsThisMonth store u as_of.monthStart) (moodsThisMonth_ge_one hvalid)
  have he := pyAvg_spec (energiesThisMonth store u as_of.monthStart) (energiesThisMonth_ge_one hvalid)
  have hmnil := moodsThisMonth_eq_nil_iff store u as_of.monthStart
  have henil := energiesThisMonth_eq_nil_iff store u as_of.monthStart
  refine ⟨?_, ?_, ?_, ?_⟩
  · unfold average_mood_this_month
    rw [hm.1, hmnil]
  · intro hex
    unfold average_mood_this_month
    exact hm.2 (fun hn => (hmnil.mp hn) hex)
  · unfold average_energy_this_month
    rw [he.1, henil]
  · intro hex
    unfold average_energy_this_month
    exact he.2 (fun hn => (henil.mp hn) hex)

/-- Witness for C6 (the spec's scenario): moods 8 (2024-01-05) and 4
(2024-01-20), `as_of` 2024-01-31 give average mood 6.0; with no energy values
recorded, the energy average is null. -/
theorem average_this_month_spec_witness :
    average_mood_this_month [entryW, entryH] "u" ⟨2024, 1, 31⟩ = some 6
    ∧ average_energy_this_month [entryW, entryH] "u" ⟨2024, 1, 31⟩ = none := by
  have h := average_this_month_spec [entryW, entryH] "u" ⟨2024, 1, 31⟩ (by decide)
  constructor
  · rw [h.2.1 ⟨entryW, by simp, rfl, by decide, rfl⟩]
    have hlist : moodsThisMonth [entryW, entryH] "u" (⟨2024, 1, 31⟩ : Date).monthStart
        = [4, 8] := by decide
    rw [hlist]
    have hmean : mean [4, 8] = 6 := by
      unfold mean
      norm_num
    rw [hmean]
    unfold round2
    norm_num
  · exact h.2.2.1.mpr (by decide)
